import Mathlib

/-!
Verification of the thokr typing-session engine (`src/thok.rs`).

Shallow embedding conventions:
* `f64` time quantities are modelled as `ℚ` (exact rationals); the claims under
  study are about formula structure and control flow, not about binary
  floating-point rounding.  The single genuine NaN case (0.0/0.0 in the
  accuracy computation) is modelled explicitly with `Option`.
* Rust panics (`unwrap` on `None`, `Vec::insert`/`Vec::remove` out of range,
  `usize` underflow) are modelled by `Option`-valued operations returning
  `none`.
* `String::len` (UTF-8 byte length) is modelled by summing `Char.utf8Size`
  over the character list, while `str::chars().nth` is positional on the
  character list, exactly as in the source.
-/

/-- Mirror of `enum Outcome { Correct, Incorrect }` in `src/thok.rs`. -/
inductive Outcome where
  | Correct
  | Incorrect
deriving DecidableEq, Repr

/-- Mirror of `struct Input { char, outcome, timestamp }` in `src/thok.rs`.
The `SystemTime` timestamp is modelled as a rational number of seconds on an
absolute clock. -/
structure Input where
  char : Char
  outcome : Outcome
  timestamp : ℚ
deriving DecidableEq, Repr

/-- Mirror of `struct Thok` in `src/thok.rs`, restricted to the fields the
session-engine claims depend on.  `prompt : String` is modelled as its
character sequence; rendering-only fields (`raw_coords`, `wpm_coords`,
`skull_cache`, `tabbed`) and the post-`calc_results` result fields (`wpm`,
`accuracy`, `std_dev`), which are computed by the pure functions below, are
not carried in the state. -/
structure Thok where
  prompt : List Char
  input : List Input
  cursor_pos : ℕ
  started_at : Option ℚ
  seconds_remaining : Option ℚ
  number_of_secs : Option ℚ
  number_of_words : ℕ
  pace : Option ℚ
  death_mode : Bool
deriving DecidableEq, Repr

/-- Mirror of `Thok::new` (`src/thok.rs` lines 46-71). -/
def Thok.new (prompt : List Char) (number_of_words : ℕ)
    (number_of_secs : Option ℚ) (pace : Option ℚ) (death_mode : Bool) : Thok :=
  { prompt := prompt
    input := []
    cursor_pos := 0
    started_at := none
    seconds_remaining := number_of_secs
    number_of_secs := number_of_secs
    number_of_words := number_of_words
    pace := pace
    death_mode := death_mode }

/-- Mirror of `Thok::on_tick` (`src/thok.rs` lines 73-77).  The decrement
quantum `TICK_RATE_MS as f64 / 1000` is a constant defined outside
`src/thok.rs`; it is passed as the parameter `tick`. -/
def Thok.on_tick (s : Thok) (tick : ℚ) : Thok :=
  match s.seconds_remaining with
  | some v => { s with seconds_remaining := some (v - tick) }
  | none => s

/-- Mirror of `Thok::get_expected_char` (`src/thok.rs` lines 79-81):
`self.prompt.chars().nth(idx).unwrap()`.  The `unwrap` panic on an
out-of-range index is modelled by `none`. -/
def Thok.get_expected_char (s : Thok) (idx : ℕ) : Option Char :=
  s.prompt.get? idx

/-- Mirror of `Thok::increment_cursor` (`src/thok.rs` lines 83-87). -/
def Thok.increment_cursor (s : Thok) : Thok :=
  if s.cursor_pos < s.input.length then { s with cursor_pos := s.cursor_pos + 1 } else s

/-- Mirror of `Thok::decrement_cursor` (`src/thok.rs` lines 89-93). -/
def Thok.decrement_cursor (s : Thok) : Thok :=
  if 0 < s.cursor_pos then { s with cursor_pos := s.cursor_pos - 1 } else s

/-- Mirror of `Thok::start` (`src/thok.rs` lines 199-201). -/
def Thok.start (s : Thok) (now : ℚ) : Thok :=
  { s with started_at := some now }

/-- Mirror of `Thok::write` (`src/thok.rs` lines 203-224).  `now` models the
value of `SystemTime::now()` during this call.  `none` models the two panic
paths: `get_expected_char`'s `unwrap` when `idx` is past the prompt's last
character, and `Vec::insert` when `cursor_pos > input.len()`. -/
def Thok.write (s : Thok) (c : Char) (now : ℚ) : Option Thok :=
  let idx := s.input.length
  let s1 := if idx = 0 ∧ s.started_at = none then s.start now else s
  match s1.get_expected_char idx with
  | none => none
  | some expected =>
    let outcome := if c = expected then Outcome.Correct else Outcome.Incorrect
    if s1.cursor_pos ≤ s1.input.length then
      some (Thok.increment_cursor
        { s1 with input := s1.input.insertIdx s1.cursor_pos ⟨c, outcome, now⟩ })
    else none

/-- Mirror of `Thok::backspace` (`src/thok.rs` lines 181-186).  `none` models
the `Vec::remove` panic when `cursor_pos - 1` is out of range. -/
def Thok.backspace (s : Thok) : Option Thok :=
  if 0 < s.cursor_pos then
    if s.cursor_pos - 1 < s.input.length then
      some (Thok.decrement_cursor { s with input := s.input.eraseIdx (s.cursor_pos - 1) })
    else none
  else some s

/-- Mirror of one `self.input.remove(self.cursor_pos - 1); self.decrement_cursor();`
step inside `Thok::word_backspace` (`src/thok.rs` lines 188-197).  `none`
models the panic on `usize` underflow of `cursor_pos - 1` (the source only
executes this when `input` is non-empty) or an out-of-range `Vec::remove`. -/
def Thok.removeAtCursor (s : Thok) : Option Thok :=
  if 0 < s.cursor_pos then
    if s.cursor_pos - 1 < s.input.length then
      some (Thok.decrement_cursor { s with input := s.input.eraseIdx (s.cursor_pos - 1) })
    else none
  else none

/-- Mirror of the `while self.input.last().is_some_and(|i| i.char != ' ')`
loop of `Thok::word_backspace` (`src/thok.rs` lines 193-196). -/
def Thok.wbLoop (s : Thok) : Option Thok :=
  match s.input.getLast? with
  | none => some s
  | some i =>
    if i.char = ' ' then some s
    else
      if h0 : 0 < s.cursor_pos then
        if h1 : s.cursor_pos - 1 < s.input.length then
          Thok.wbLoop (Thok.decrement_cursor
            { s with input := s.input.eraseIdx (s.cursor_pos - 1) })
        else none
      else none
termination_by s.input.length
decreasing_by
  simp only [Thok.decrement_cursor]
  split <;> simp [List.length_eraseIdx, h1] <;> omega

/-- Mirror of `Thok::word_backspace` (`src/thok.rs` lines 188-197): an initial
removal if the last keystroke is a space (the `if let` pattern), followed by
the non-space removal loop. -/
def Thok.word_backspace (s : Thok) : Option Thok :=
  let first : Option Thok :=
    match s.input.getLast? with
    | some i => if i.char = ' ' then s.removeAtCursor else some s
    | none => some s
  first.bind Thok.wbLoop

/-- Mirror of `Thok::fatal_error` (`src/thok.rs` lines 281-284). -/
def Thok.fatal_error (s : Thok) : Bool :=
  s.death_mode && s.input.any (fun i => i.outcome == Outcome.Incorrect)

/-- UTF-8 byte length of the prompt: the model of `String::len()` as used in
`has_finished` (`self.prompt.len()`), which counts bytes, not characters. -/
def promptByteLen (p : List Char) : ℕ :=
  (p.map Char.utf8Size).sum

/-- Mirror of `Thok::has_finished` (`src/thok.rs` lines 230-237). -/
def Thok.has_finished (s : Thok) : Bool :=
  let finished_prompt := s.input.length == promptByteLen s.prompt
  let out_of_time :=
    match s.seconds_remaining with
    | some v => decide (v ≤ 0)
    | none => false
  finished_prompt || out_of_time || s.fatal_error

/-- Mirror of the per-keystroke bucket adjustment inside `calc_results`
(`src/thok.rs` lines 112-129).  `started_at` is the unwrapped start instant,
`elapsedMs` the value of `elapsed_secs` (which the source sets to
`elapsed().as_millis() as f64`, a whole number of milliseconds), and
`num_secs` the keystroke's `duration_since(started_at).as_secs_f64()` offset
(meaningful when `i.timestamp ≥ started_at`; the source `unwrap`s the
`duration_since`).  `whole_second_limit` mirrors `elapsed_secs.floor()`. -/
def numSecsBucket (started_at : ℚ) (elapsedMs : ℕ) (i : Input) : ℚ :=
  let whole_second_limit : ℤ := ⌊(elapsedMs : ℚ)⌋
  let num_secs : ℚ := i.timestamp - started_at
  if num_secs = 0 then 1
  else if ⌈num_secs⌉ ≤ whole_second_limit then
    (if 0 < num_secs ∧ num_secs < 1 then 1 else (⌈num_secs⌉ : ℚ))
  else (elapsedMs : ℚ)

/-- Insertion of a key into a sorted list of bucket keys. -/
def insertKey (x : ℚ) : List ℚ → List ℚ
  | [] => [x]
  | y :: ys => if x ≤ y then x :: y :: ys else y :: insertKey x ys

/-- Sorting of bucket keys, modelling `sorted_by(partial_cmp)` over the
pairs collected from the `HashMap` (keys are distinct, so the pair sort is a
sort by key). -/
def sortKeys : List ℚ → List ℚ
  | [] => []
  | x :: xs => insertKey x (sortKeys xs)

/-- Mirror of `correct_chars_per_sec` (`src/thok.rs` lines 108-137): the
correct keystrokes are folded into a `HashMap` keyed by the adjusted bucket
value (the source keys by `num_secs.to_string()`, injective on finite `f64`
values), each entry counting its keystrokes, and the entries are then sorted
by key. -/
def calcBuckets (started_at : ℚ) (elapsedMs : ℕ) (input : List Input) : List (ℚ × ℕ) :=
  let correct := input.filter (fun i => i.outcome == Outcome.Correct)
  let adjusted := correct.map (numSecsBucket started_at elapsedMs)
  (sortKeys adjusted.dedup).map (fun k => (k, adjusted.count k))

/-- Mirror of `correct_chars_at_whole_sec_intervals` (`src/thok.rs` lines
139-144): `enumerate().filter(|&(i, _)| i < len - 1).map(|(_, x)| x.1)`.
The subtraction is `usize` subtraction, i.e. truncated, exactly as `ℕ`
subtraction. -/
def wholeSecGroups (buckets : List (ℚ × ℕ)) : List ℕ :=
  (buckets.enum.filter (fun p => p.1 < buckets.length - 1)).map (fun p => p.2.2)

/-- Modelled from the spec: `crate::util::std_dev` is used by `calc_results`
but `util.rs` is not under `src/`.  Spec §4.3 calls it the population
standard deviation of the counts, and `calc_results` guards its `.unwrap()`
with a non-emptiness check, so the function is `Option`-valued: `none` on the
empty list, otherwise the population standard deviation. -/
noncomputable def std_dev (v : List ℝ) : Option ℝ :=
  if v = [] then none
  else
    let mean := v.sum / v.length
    some (Real.sqrt ((v.map (fun x => (x - mean) ^ 2)).sum / v.length))

/-- Population standard deviation of a list of reals, stated directly from
the spec's words for comparison with the code path. -/
noncomputable def popStdDev (v : List ℝ) : ℝ :=
  Real.sqrt ((v.map (fun x => (x - v.sum / v.length) ^ 2)).sum / v.length)

/-- Mirror of the `std_dev` field assignment of `calc_results` (`src/thok.rs`
lines 146-151): `std_dev(...).unwrap()` on the whole-second groups when they
are non-empty (the guard makes the `unwrap` total, modelled by `getD 0`),
`0.0` otherwise. -/
noncomputable def consistencyOf (started_at : ℚ) (elapsedMs : ℕ) (input : List Input) : ℝ :=
  let sel := wholeSecGroups (calcBuckets started_at elapsedMs input)
  if sel.isEmpty = false then (std_dev (sel.map (fun n : ℕ => (n : ℝ)))).getD 0 else 0

/-- Mirror of `correct_words` (`src/thok.rs` lines 163-168):
`input.split(|i| i.char == ' ')` keeps empty segments (including a leading
or trailing one), exactly like `List.splitOnP`; a segment is counted when no
keystroke in it is `Incorrect`. -/
def correctWordCount (input : List Input) : ℕ :=
  ((input.splitOnP (fun i => i.char == ' ')).filter
    (fun w => !(w.any (fun i => i.outcome == Outcome.Incorrect)))).length

/-- Mirror of the `wpm` field assignment (`src/thok.rs` lines 170-173), with
`elapsedSecs` the value of `elapsed().as_secs_f64()` at that point; the model
is meaningful for `elapsedSecs > 0` (at exactly `0` the `f64` division would
produce an infinity instead of a number). -/
def calcWpm (input : List Input) (elapsedSecs : ℚ) : ℤ :=
  ⌈(correctWordCount input : ℚ) / (elapsedSecs / 60)⌉

/-- Mirror of `correct_chars.len()` (`src/thok.rs` lines 96-101). -/
def countCorrectChars (input : List Input) : ℕ :=
  (input.filter (fun i => i.outcome == Outcome.Correct)).length

/-- Rounding of `f64::round`: half away from zero. -/
def rustRound (q : ℚ) : ℤ :=
  if 0 ≤ q then ⌊q + 1 / 2⌋ else ⌈q - 1 / 2⌉

/-- Mirror of the `accuracy` field assignment (`src/thok.rs` lines 174-176):
`((correct_chars.len() as f64 / input.len() as f64) * 100.0).round()`.  When
`input` is empty the `f64` quotient is `0.0 / 0.0 = NaN`, and rounding NaN
gives NaN; the NaN result is modelled as `none`. -/
def calcAccuracy (input : List Input) : Option ℚ :=
  if input.length = 0 then none
  else some ((rustRound ((countCorrectChars input : ℚ) / (input.length : ℚ) * 100) : ℚ))

/-- Session-engine operations reachable from the input-dispatch loop. -/
inductive Op where
  | write (c : Char) (t : ℚ)
  | backspace
  | word_backspace
  | tick (dt : ℚ)

/-- Application of one operation; `none` propagates a panic. -/
def applyOp (s : Thok) : Op → Option Thok
  | .write c t => s.write c t
  | .backspace => s.backspace
  | .word_backspace => s.word_backspace
  | .tick dt => some (s.on_tick dt)

/-- Application of a sequence of operations, stopping at the first panic. -/
def runOps (s : Thok) : List Op → Option Thok
  | [] => some s
  | op :: rest => (applyOp s op).bind (fun s1 => runOps s1 rest)

/-- Helper for concrete sessions: a fully correct keystroke record per
character, timestamped `0`. -/
def buildInput (cs : List Char) : List Input :=
  cs.map (fun c => { char := c, outcome := Outcome.Correct, timestamp := 0 })

/-- Claim-side word count, stated from the spec's words: split the keystroke
sequence into words on the space character; a word counts as correct only if
none of its keystrokes has outcome `Incorrect`. -/
def correctWordCountSpec (input : List Input) : ℕ :=
  ((input.splitOnP (fun i => i.char == ' ')).filter
    (fun w => decide (∀ i ∈ w, i.outcome ≠ Outcome.Incorrect))).length

/-- Trailing-run removal stated from claim C8's words: repeatedly remove the
last keystroke while it is not a space. -/
def dropTrailingWord (l : List Input) : List Input :=
  (l.reverse.dropWhile (fun i => !(i.char == ' '))).reverse

/-- Full `word_backspace` result stated from claim C8's words: first remove a
trailing space if the last keystroke is a space, then remove the trailing run
of non-space keystrokes. -/
def wordBackspaceResult (l : List Input) : List Input :=
  dropTrailingWord
    (match l.getLast? with
     | some i => if i.char = ' ' then l.dropLast else l
     | none => l)

/-- Concrete session whose keystroke count equals the prompt length (prompt
"a" fully typed). -/
def sessionAtPromptEnd : Thok :=
  { prompt := ['a']
    input := [⟨'a', Outcome.Correct, 0⟩]
    cursor_pos := 1
    started_at := some 0
    seconds_remaining := none
    number_of_secs := none
    number_of_words := 1
    pace := none
    death_mode := false }

/-- Concrete sessions over the prompt "one two three four" with the given
typed characters and the cursor at the end of the input. -/
def wordSession (cs : List Char) : Thok :=
  { prompt := "one two three four".toList
    input := buildInput cs
    cursor_pos := cs.length
    started_at := some 0
    seconds_remaining := none
    number_of_secs := none
    number_of_words := 4
    pace := none
    death_mode := false }

lemma correctWordCount_eq_spec (input : List Input) :
    correctWordCount input = correctWordCountSpec input := by
  unfold correctWordCount correctWordCountSpec
  congr 1
  apply List.filter_congr
  intro w _
  rw [Bool.eq_iff_iff]
  simp [List.any_eq_true]

/-- Claim C3: `has_finished` returns `true` if and only if the number of
keystrokes equals the length of the prompt (`String::len`, i.e. its UTF-8
byte length), or a duration limit is set and `seconds_remaining ≤ 0`, or
`death_mode` is set and some recorded keystroke has outcome `Incorrect`. -/
theorem has_finished_iff (s : Thok) :
    s.has_finished = true ↔
      s.input.length = promptByteLen s.prompt ∨
        (∃ r, s.seconds_remaining = some r ∧ r ≤ 0) ∨
        (s.death_mode = true ∧ ∃ i ∈ s.input, i.outcome = Outcome.Incorrect) := by
  cases hsr : s.seconds_remaining with
  | none =>
    simp [Thok.has_finished, Thok.fatal_error, hsr, List.any_eq_true, and_assoc]
  | some r =>
    simp [Thok.has_finished, Thok.fatal_error, hsr, List.any_eq_true, and_assoc, or_assoc]

/-- Claim C1 (code bug evidence): the claim says a correct keystroke whose
offset ceiling exceeds the floor of the total elapsed *seconds* is clamped to
the raw elapsed-seconds value.  The source instead compares the ceiling
against `elapsed().as_millis()` (stored in the misleadingly named
`elapsed_secs`), so for a keystroke at offset 3.1 s in a session of 3.2 s
(3200 ms) the condition `ceil(3.1) = 4 ≤ 3200` holds and the keystroke lands
in bucket 4, not in the clamped bucket 3.2 = 16/5 required by the claim (and
by the spec's handling of the final partial second). -/
theorem bucket_trailing_fraction_not_clamped :
    numSecsBucket 0 3200 ⟨'a', Outcome.Correct, 31 / 10⟩ = 4 ∧
      calcBuckets 0 3200 [⟨'a', Outcome.Correct, 31 / 10⟩] = [(4, 1)] ∧
      (4 : ℚ) ≠ 16 / 5 := by
  have hceil : ⌈(31 / 10 : ℚ)⌉ = 4 := by
    rw [Int.ceil_eq_iff] <;> norm_num
  have h4 : numSecsBucket 0 3200 ⟨'a', Outcome.Correct, 31 / 10⟩ = 4 := by
    norm_num [numSecsBucket]
    rw [hceil]
    norm_num
  refine ⟨h4, ?_, by norm_num⟩
  simp [calcBuckets, h4, sortKeys, insertKey, List.dedup, List.count_cons, List.count_nil]

/-- Claim C6 counterexample: on an empty keystroke sequence the accuracy
computation divides 0.0 by 0.0, which is NaN (modelled `none`) — not the
claimed defined value 0. -/
theorem calcAccuracy_empty_counterexample :
    calcAccuracy [] = none ∧ calcAccuracy [] ≠ some 0 := by
  constructor <;> simp [calcAccuracy]

/-- Claim C6 (amended): accuracy is `round(100 * correct / total)` for a
non-empty keystroke sequence; for an empty sequence the division 0.0/0.0
yields NaN (an undefined value, modelled `none`) — the code has no
division-by-zero guard defining it as 0. -/
theorem calcAccuracy_formula (input : List Input) :
    (input ≠ [] →
        calcAccuracy input =
          some ((rustRound (100 * (countCorrectChars input : ℚ) / (input.length : ℚ)) : ℤ) : ℚ)) ∧
      (input = [] → calcAccuracy input = none) := by
  constructor
  · intro h
    have hlen : input.length ≠ 0 := fun hc => h (List.length_eq_zero.mp hc)
    simp only [calcAccuracy, hlen, if_false]
    congr 2
    ring
  · intro h
    simp [calcAccuracy, h]

/-- Witness for claim C6's amended theorem: a concrete two-keystroke
session computes accuracy 100, and the empty session computes NaN. -/
theorem calcAccuracy_formula_witness :
    calcAccuracy (buildInput ['a', 'b']) = some 100 ∧ calcAccuracy [] = none := by
  constructor
  · have h := (calcAccuracy_formula (buildInput ['a', 'b'])).1 (by decide)
    have hc : countCorrectChars (buildInput ['a', 'b']) = 2 := by decide
    have hl : (buildInput ['a', 'b']).length = 2 := by decide
    rw [h, hc, hl]
    norm_num [rustRound]
  · exact (calcAccuracy_formula []).2 rfl

/-- Claim C5: `calc_results` computes the final words-per-minute by splitting
the full keystroke sequence into words on the space character, counting a
word as correct only if none of its keystrokes has outcome `Incorrect`, and
setting `wpm = ceil(correct_word_count / (elapsed_seconds / 60))`.  The
hypothesis `0 < elapsedSecs` scopes the model to the domain where the `f64`
division is finite. -/
theorem calcWpm_eq_ceil_correct_words (input : List Input) (elapsedSecs : ℚ)
    (h : 0 < elapsedSecs) :
    calcWpm input elapsedSecs =
      ⌈(correctWordCountSpec input : ℚ) / (elapsedSecs / 60)⌉ := by
  rw [calcWpm, correctWordCount_eq_spec]

/-- Witness for claim C5: the prompt "one two three" typed fully correctly
with one second elapsed yields wpm 180 (3 correct words / (1/60) minute). -/
theorem calcWpm_eq_ceil_correct_words_witness :
    calcWpm (buildInput ("one two three".toList)) 1 = 180 := by
  have h := calcWpm_eq_ceil_correct_words (buildInput ("one two three".toList)) 1 (by norm_num)
  have hc : correctWordCountSpec (buildInput ("one two three".toList)) = 3 := by decide
  rw [h, hc]
  norm_num

lemma increment_cursor_input (s : Thok) : s.increment_cursor.input = s.input := by
  unfold Thok.increment_cursor; split <;> rfl

lemma increment_cursor_cursor_of_lt (s : Thok) (h : s.cursor_pos < s.input.length) :
    s.increment_cursor.cursor_pos = s.cursor_pos + 1 := by
  unfold Thok.increment_cursor; rw [if_pos h]

lemma write_some (s : Thok) (c : Char) (t : ℚ) (e : Char)
    (hE : s.prompt.get? s.input.length = some e)
    (hcur : s.cursor_pos ≤ s.input.length) :
    s.write c t =
      some (Thok.increment_cursor
        { (if s.input.length = 0 ∧ s.started_at = none then s.start t else s) with
          input := s.input.insertIdx s.cursor_pos
            ⟨c, if c = e then Outcome.Correct else Outcome.Incorrect, t⟩ }) := by
  have hp : (if s.input.length = 0 ∧ s.started_at = none then s.start t else s).prompt
      = s.prompt := by split <;> rfl
  have hi : (if s.input.length = 0 ∧ s.started_at = none then s.start t else s).input
      = s.input := by split <;> rfl
  have hc : (if s.input.length = 0 ∧ s.started_at = none then s.start t else s).cursor_pos
      = s.cursor_pos := by split <;> rfl
  simp only [Thok.write, Thok.get_expected_char, hp, hi, hc, hE, if_pos hcur]

lemma write_none_of_prompt_exhausted (s : Thok) (c : Char) (t : ℚ)
    (h : s.prompt.length ≤ s.input.length) : s.write c t = none := by
  have hp : (if s.input.length = 0 ∧ s.started_at = none then s.start t else s).prompt
      = s.prompt := by split <;> rfl
  have hE : s.prompt.get? s.input.length = none := List.get?_eq_none.mpr h
  simp only [Thok.write, Thok.get_expected_char, hp, hE]

/-- Claim C2: `write(c)` records outcome `Correct` iff `c` equals the prompt
character at index `len(keystrokes)` (the keystroke count, not the cursor),
inserts the new keystroke record at `cursor_position`, and advances the
cursor by one, bounded by the sequence length.  The hypotheses state the
non-panicking preconditions of the source (`get_expected_char`'s `unwrap`
succeeds, `Vec::insert` is in range). -/
theorem write_records_positional_outcome (s : Thok) (c : Char) (t : ℚ) (e : Char)
    (hE : s.prompt.get? s.input.length = some e)
    (hcur : s.cursor_pos ≤ s.input.length) :
    ∃ s1 o,
      s.write c t = some s1 ∧
        s1.input = s.input.insertIdx s.cursor_pos ⟨c, o, t⟩ ∧
        (o = Outcome.Correct ↔ c = e) ∧
        s1.cursor_pos = s.cursor_pos + 1 ∧
        s1.cursor_pos ≤ s1.input.length := by
  have hc : (if s.input.length = 0 ∧ s.started_at = none then s.start t else s).cursor_pos
      = s.cursor_pos := by split <;> rfl
  refine ⟨_, if c = e then Outcome.Correct else Outcome.Incorrect,
    write_some s c t e hE hcur, ?_, ?_, ?_, ?_⟩
  · rw [increment_cursor_input]
  · by_cases h : c = e <;> simp [h]
  · rw [increment_cursor_cursor_of_lt]
    · simp only [hc]
    · simp only [hc, List.length_insertIdx _ _ hcur]
      omega
  · rw [increment_cursor_cursor_of_lt, increment_cursor_input]
    · simp only [hc, List.length_insertIdx _ _ hcur]
      omega
    · simp only [hc, List.length_insertIdx _ _ hcur]
      omega

/-- Witness for claim C2: writing the first (correct) character of the
prompt "hi" into a fresh session. -/
theorem write_records_positional_outcome_witness :
    ∃ s1 o,
      Thok.write (Thok.new ['h', 'i'] 2 none none false) 'h' 0 = some s1 ∧
        s1.input = (Thok.new ['h', 'i'] 2 none none false).input.insertIdx
          (Thok.new ['h', 'i'] 2 none none false).cursor_pos ⟨'h', o, 0⟩ ∧
        (o = Outcome.Correct ↔ 'h' = 'h') ∧
        s1.cursor_pos = (Thok.new ['h', 'i'] 2 none none false).cursor_pos + 1 ∧
        s1.cursor_pos ≤ s1.input.length :=
  write_records_positional_outcome (Thok.new ['h', 'i'] 2 none none false) 'h' 0 'h'
    rfl (by decide)

/-- Claim C9 counterexample: with the prompt "a" fully typed (keystroke
count = prompt length), `write` is not a state-preserving no-op: it panics
(`get_expected_char`'s `unwrap` on `None`), modelled by `none`. -/
theorem write_at_end_counterexample :
    Thok.write sessionAtPromptEnd 'b' 1 = none ∧
      Thok.write sessionAtPromptEnd 'b' 1 ≠ some sessionAtPromptEnd := by
  constructor
  · decide
  · decide

/-- Claim C9 (amended): calling `backspace` at `cursor_position = 0` is a
defensive no-op (state unchanged, no failure), but writing a character when
the keystroke count has reached the prompt length is a panic
(`get_expected_char` unwraps `None`), not a no-op. -/
theorem backspace_noop_write_panics (s : Thok) (c : Char) (t : ℚ) :
    (s.cursor_pos = 0 → s.backspace = some s) ∧
      (s.prompt.length ≤ s.input.length → s.write c t = none) := by
  constructor
  · intro h
    unfold Thok.backspace
    rw [if_neg (by omega)]
  · exact fun h => write_none_of_prompt_exhausted s c t h

/-- Witness for claim C9's amended theorem: a fresh session backspaces to
itself, and a fully typed session's write panics. -/
theorem backspace_noop_write_panics_witness :
    Thok.backspace (Thok.new ['a'] 1 none none false) =
        some (Thok.new ['a'] 1 none none false) ∧
      Thok.write sessionAtPromptEnd 'x' 2 = none :=
  ⟨(backspace_noop_write_panics (Thok.new ['a'] 1 none none false) 'x' 2).1 rfl,
   (backspace_noop_write_panics sessionAtPromptEnd 'x' 2).2 (by decide)⟩

lemma eraseIdx_last {α : Type} (l : List α) (h : l ≠ []) :
    l.eraseIdx (l.length - 1) = l.dropLast := by
  rw [List.eraseIdx_eq_take_drop_succ, List.dropLast_eq_take]
  have hl : l.length - 1 + 1 = l.length :=
    Nat.succ_pred_eq_of_pos (List.length_pos.mpr h)
  rw [hl, List.drop_length, List.append_nil]

lemma dropTrailingWord_concat_space {l : List Input} {i : Input} (h : i.char = ' ') :
    dropTrailingWord (l ++ [i]) = l ++ [i] := by
  unfold dropTrailingWord
  rw [List.reverse_append]
  simp [List.dropWhile_cons, h]

lemma dropTrailingWord_concat_nonspace {l : List Input} {i : Input} (h : ¬i.char = ' ') :
    dropTrailingWord (l ++ [i]) = dropTrailingWord l := by
  unfold dropTrailingWord
  rw [List.reverse_append]
  simp [List.dropWhile_cons, h]

lemma wbLoop_spec (n : ℕ) : ∀ s : Thok, s.input.length ≤ n →
    s.cursor_pos = s.input.length →
    s.wbLoop = some { s with input := dropTrailingWord s.input,
                             cursor_pos := (dropTrailingWord s.input).length } := by
  induction n with
  | zero =>
    intro s hle hcur
    obtain ⟨p, inp, cur, st, sr, ns, nw, pc, dm⟩ := s
    simp only at hle hcur
    have hnil : inp = [] := List.length_eq_zero.mp (Nat.le_zero.mp hle)
    subst hnil
    simp only [List.length_nil] at hcur
    subst hcur
    simp [Thok.wbLoop, dropTrailingWord]
  | succ n ih =>
    intro s hle hcur
    obtain ⟨p, inp, cur, st, sr, ns, nw, pc, dm⟩ := s
    simp only at hle hcur ⊢
    cases hL : inp.getLast? with
    | none =>
      have hnil : inp = [] := List.getLast?_eq_none_iff.mp hL
      subst hnil
      simp only [List.length_nil] at hcur
      subst hcur
      simp [Thok.wbLoop, dropTrailingWord]
    | some i =>
      obtain ⟨ys, rfl⟩ := List.getLast?_eq_some_iff.mp hL
      have hlen0 : 0 < (ys ++ [i]).length := by simp
      have h0 : 0 < cur := hcur.symm ▸ hlen0
      have h1 : cur - 1 < (ys ++ [i]).length := by omega
      by_cases hsp : i.char = ' '
      · unfold Thok.wbLoop
        simp only [hL, if_pos hsp]
        rw [dropTrailingWord_concat_space hsp, ← hcur]
      · have herase : (ys ++ [i]).eraseIdx (cur - 1) = ys := by
          rw [hcur]
          rw [eraseIdx_last (ys ++ [i]) (by simp)]
          exact List.dropLast_concat
        have hle2 : ys.length ≤ n := by
          simp only [List.length_append, List.length_singleton] at hle
          omega
        have hcur2 : cur - 1 = ys.length := by
          simp only [List.length_append, List.length_singleton] at hcur
          omega
        unfold Thok.wbLoop
        simp only [hL, if_neg hsp, dif_pos h0, dif_pos h1, herase]
        unfold Thok.decrement_cursor
        dsimp only
        rw [if_pos h0]
        rw [ih ⟨p, ys, cur - 1, st, sr, ns, nw, pc, dm⟩ hle2 hcur2]
        rw [dropTrailingWord_concat_nonspace hsp]

lemma word_backspace_spec (s : Thok) (hcur : s.cursor_pos = s.input.length) :
    s.word_backspace = some { s with input := wordBackspaceResult s.input,
                                     cursor_pos := (wordBackspaceResult s.input).length } := by
  unfold Thok.word_backspace wordBackspaceResult
  cases hL : s.input.getLast? with
  | none =>
    simp only [hL, Option.some_bind]
    exact wbLoop_spec s.input.length s le_rfl hcur
  | some i =>
    obtain ⟨ys, hys⟩ := List.getLast?_eq_some_iff.mp hL
    by_cases hsp : i.char = ' '
    · simp only [hL, if_pos hsp]
      have hlen0 : 0 < s.input.length := by rw [hys]; simp
      have h0 : 0 < s.cursor_pos := by omega
      have h1 : s.cursor_pos - 1 < s.input.length := by omega
      have herase : s.input.eraseIdx (s.cursor_pos - 1) = s.input.dropLast := by
        rw [hcur]
        exact eraseIdx_last _ (by rw [hys]; simp)
      unfold Thok.removeAtCursor
      rw [if_pos h0, if_pos h1, herase]
      unfold Thok.decrement_cursor
      dsimp only
      rw [if_pos h0, Option.some_bind]
      have hcur2 : s.cursor_pos - 1 = s.input.dropLast.length := by
        rw [List.length_dropLast]
        omega
      exact wbLoop_spec _ _ le_rfl hcur2
    · simp only [hL, if_neg hsp, Option.some_bind]
      exact wbLoop_spec s.input.length s le_rfl hcur

/-- Claim C8: `word_backspace` first removes a trailing space if the last
keystroke is a space, then repeatedly removes the last keystroke while it is
not a space, decrementing the cursor with each removal (`wordBackspaceResult`
and `dropTrailingWord` state exactly this procedure; the cursor invariant
`cursor_pos = len(input)` of reachable sessions makes `remove(cursor_pos - 1)`
remove the last keystroke). -/
theorem word_backspace_removes_trailing_word (s : Thok)
    (hcur : s.cursor_pos = s.input.length) :
    s.word_backspace = some { s with input := wordBackspaceResult s.input,
                                     cursor_pos := (wordBackspaceResult s.input).length } :=
  word_backspace_spec s hcur

/-- Witness for claim C8, matching the claim's concrete example: on fully
typed "one two three four" one call leaves "one two three " (trailing space
retained) and a second call leaves "one two ". -/
theorem word_backspace_removes_trailing_word_witness :
    Thok.word_backspace (wordSession ("one two three four".toList)) =
        some (wordSession ("one two three ".toList)) ∧
      Thok.word_backspace (wordSession ("one two three ".toList)) =
        some (wordSession ("one two ".toList)) := by
  constructor
  · have h := word_backspace_removes_trailing_word
      (wordSession ("one two three four".toList)) (by decide)
    rw [h]; decide
  · have h := word_backspace_removes_trailing_word
      (wordSession ("one two three ".toList)) (by decide)
    rw [h]; decide

lemma write_inv {s s1 : Thok} {c : Char} {t : ℚ}
    (h : s.cursor_pos = s.input.length) (hw : s.write c t = some s1) :
    s1.cursor_pos = s1.input.length := by
  cases hg : s.prompt.get? s.input.length with
  | none =>
    rw [write_none_of_prompt_exhausted s c t (List.get?_eq_none.mp hg)] at hw
    exact absurd hw (by simp)
  | some e =>
    have hcur : s.cursor_pos ≤ s.input.length := le_of_eq h
    rw [write_some s c t e hg hcur] at hw
    have hx := Option.some.inj hw
    subst hx
    have hc : (if s.input.length = 0 ∧ s.started_at = none then s.start t else s).cursor_pos
        = s.cursor_pos := by split <;> rfl
    rw [increment_cursor_cursor_of_lt, increment_cursor_input]
    · simp only [hc, List.length_insertIdx _ _ hcur]
      omega
    · simp only [hc, List.length_insertIdx _ _ hcur]
      omega

lemma backspace_inv {s s1 : Thok}
    (h : s.cursor_pos = s.input.length) (hw : s.backspace = some s1) :
    s1.cursor_pos = s1.input.length := by
  unfold Thok.backspace at hw
  by_cases h0 : 0 < s.cursor_pos
  · have h1 : s.cursor_pos - 1 < s.input.length := by omega
    rw [if_pos h0, if_pos h1] at hw
    have hx := Option.some.inj hw
    subst hx
    unfold Thok.decrement_cursor
    dsimp only
    rw [if_pos h0]
    simp only [List.length_eraseIdx, h1, if_true, if_pos h1]
    omega
  · rw [if_neg h0] at hw
    have hx := Option.some.inj hw
    subst hx
    exact h

lemma word_backspace_inv {s s1 : Thok}
    (h : s.cursor_pos = s.input.length) (hw : s.word_backspace = some s1) :
    s1.cursor_pos = s1.input.length := by
  rw [word_backspace_spec s h] at hw
  have hx := Option.some.inj hw
  subst hx
  rfl

lemma applyOp_inv {s s1 : Thok} {op : Op}
    (h : s.cursor_pos = s.input.length) (hw : applyOp s op = some s1) :
    s1.cursor_pos = s1.input.length := by
  cases op with
  | write c t => exact write_inv h hw
  | backspace => exact backspace_inv h hw
  | word_backspace => exact word_backspace_inv h hw
  | tick dt =>
    have hx := Option.some.inj hw
    subst hx
    unfold Thok.on_tick
    cases s.seconds_remaining <;> exact h

lemma runOps_inv (ops : List Op) : ∀ s : Thok, s.cursor_pos = s.input.length →
    ∀ s1, runOps s ops = some s1 → s1.cursor_pos = s1.input.length := by
  induction ops with
  | nil =>
    intro s h s1 hr
    simp only [runOps] at hr
    have hx := Option.some.inj hr
    subst hx
    exact h
  | cons op rest ih =>
    intro s h s1 hr
    simp only [runOps] at hr
    obtain ⟨s2, h2, h3⟩ := Option.bind_eq_some.mp hr
    exact ih s2 (applyOp_inv h h2) s1 h3

/-- Claim C10: from a freshly constructed session, after any sequence of
`write`, `backspace`, `word_backspace` and `on_tick` operations that does not
panic, `cursor_position = len(keystrokes)` — the cursor is always at the end
of the input, so the positional correctness index (`len(input)`) and the
insertion position (`cursor_pos`) never diverge in a reachable state. -/
theorem cursor_eq_len_after_runOps (prompt : List Char) (nw : ℕ)
    (ns pc : Option ℚ) (dm : Bool) (ops : List Op) (s1 : Thok)
    (h : runOps (Thok.new prompt nw ns pc dm) ops = some s1) :
    s1.cursor_pos = s1.input.length :=
  runOps_inv ops (Thok.new prompt nw ns pc dm) rfl s1 h

/-- Witness for claim C10: one `write` into a fresh "hi" session reaches the
explicitly given state, whose cursor equals its input length. -/
theorem cursor_eq_len_after_runOps_witness :
    ({ prompt := ['h', 'i'], input := [⟨'h', Outcome.Correct, 0⟩], cursor_pos := 1,
       started_at := some 0, seconds_remaining := none, number_of_secs := none,
       number_of_words := 1, pace := none, death_mode := false } : Thok).cursor_pos =
      ({ prompt := ['h', 'i'], input := [⟨'h', Outcome.Correct, 0⟩], cursor_pos := 1,
         started_at := some 0, seconds_remaining := none, number_of_secs := none,
         number_of_words := 1, pace := none, death_mode := false } : Thok).input.length :=
  cursor_eq_len_after_runOps ['h', 'i'] 1 none none false [Op.write 'h' 0] _ (by decide)

/-- Claim C4 counterexample (to the parenthetical "no call panics"): writing
twice into a fresh session with the one-character prompt "a" panics on the
second `write` (`get_expected_char` unwraps `None`), modelled by `none`. -/
theorem runOps_write_panic_counterexample :
    runOps (Thok.new ['a'] 1 none none false) [Op.write 'a' 0, Op.write 'a' 1] = none := by
  decide

/-- Claim C4 (amended): from a freshly constructed session, after any
sequence of `write`/`backspace`/`word_backspace`/`on_tick` calls,
`cursor_position` stays within `[0, len(keystrokes)]` in every reached state;
however a call can panic — `write` panics when the keystroke count reaches
the prompt's character count — aborting the sequence. -/
theorem cursor_bounded_after_runOps (prompt : List Char) (nw : ℕ)
    (ns pc : Option ℚ) (dm : Bool) (ops : List Op) (s1 : Thok)
    (h : runOps (Thok.new prompt nw ns pc dm) ops = some s1) :
    s1.cursor_pos ≤ s1.input.length :=
  le_of_eq (runOps_inv ops (Thok.new prompt nw ns pc dm) rfl s1 h)

/-- Witness for claim C4's amended theorem: a `write` followed by a
`backspace` reaches the explicitly given state, whose cursor is within
bounds. -/
theorem cursor_bounded_after_runOps_witness :
    ({ prompt := ['a', 'b'], input := [], cursor_pos := 0,
       started_at := some 0, seconds_remaining := none, number_of_secs := none,
       number_of_words := 1, pace := none, death_mode := false } : Thok).cursor_pos ≤
      ({ prompt := ['a', 'b'], input := [], cursor_pos := 0,
         started_at := some 0, seconds_remaining := none, number_of_secs := none,
         number_of_words := 1, pace := none, death_mode := false } : Thok).input.length :=
  cursor_bounded_after_runOps ['a', 'b'] 1 none none false
    [Op.write 'a' 0, Op.backspace] _ (by decide)

lemma filter_enumFrom_nil_of_le {α : Type} (l : List α) :
    ∀ m j : ℕ, j ≤ m → (l.enumFrom m).filter (fun p => decide (p.1 < j)) = [] := by
  induction l with
  | nil => intro m j _; rfl
  | cons a t ih =>
    intro m j h
    simp only [List.enumFrom_cons, List.filter_cons]
    rw [if_neg (by simp; omega)]
    exact ih (m + 1) j (by omega)

lemma enumFrom_filter_map_take {α : Type} (l : List α) :
    ∀ m n : ℕ,
      ((l.enumFrom m).filter (fun p => decide (p.1 < m + n))).map Prod.snd = l.take n := by
  induction l with
  | nil => intro m n; simp
  | cons a t ih =>
    intro m n
    cases n with
    | zero =>
      simp only [List.enumFrom_cons, List.filter_cons, Nat.add_zero]
      rw [if_neg (by simp)]
      rw [filter_enumFrom_nil_of_le t (m + 1) m (by omega)]
      rfl
    | succ n =>
      simp only [List.enumFrom_cons, List.filter_cons]
      rw [if_pos (by simp)]
      have h := ih (m + 1) n
      rw [show m + (n + 1) = m + 1 + n by omega]
      simp only [List.map_cons, h, List.take_succ_cons]

lemma wholeSecGroups_eq_dropLast (buckets : List (ℚ × ℕ)) :
    wholeSecGroups buckets = buckets.dropLast.map Prod.snd := by
  unfold wholeSecGroups
  have h := enumFrom_filter_map_take buckets 0 (buckets.length - 1)
  rw [Nat.zero_add] at h
  have hmm : ∀ x : List (ℕ × (ℚ × ℕ)),
      x.map (fun p => p.2.2) = (x.map Prod.snd).map Prod.snd := by
    intro x; rw [List.map_map]; rfl
  rw [show List.enum buckets = buckets.enumFrom 0 from rfl, hmm, h,
    ← List.dropLast_eq_take]

lemma std_dev_nonempty (v : List ℝ) (h : v ≠ []) : std_dev v = some (popStdDev v) := by
  unfold std_dev popStdDev
  rw [if_neg h]

/-- Claim C7: the consistency value is the population standard deviation of
the per-second bucket counts over all buckets except the final one, ordered
by time; it is exactly 0.0 when the histogram is empty or has a single
bucket.  (`util::std_dev` is not under `src/`; it is modelled from the spec
as the population standard deviation, `none` on an empty list.) -/
theorem consistency_eq_popStdDev (started_at : ℚ) (elapsedMs : ℕ) (input : List Input) :
    (consistencyOf started_at elapsedMs input =
        if (calcBuckets started_at elapsedMs input).dropLast.map (fun p => ((p.2 : ℕ) : ℝ)) = []
        then 0
        else
          popStdDev
            ((calcBuckets started_at elapsedMs input).dropLast.map (fun p => ((p.2 : ℕ) : ℝ)))) ∧
      ((calcBuckets started_at elapsedMs input).length ≤ 1 →
        consistencyOf started_at elapsedMs input = 0) := by
  have hmain :
      consistencyOf started_at elapsedMs input =
        if (calcBuckets started_at elapsedMs input).dropLast.map (fun p => ((p.2 : ℕ) : ℝ)) = []
        then 0
        else
          popStdDev
            ((calcBuckets started_at elapsedMs input).dropLast.map (fun p => ((p.2 : ℕ) : ℝ))) := by
    unfold consistencyOf
    rw [wholeSecGroups_eq_dropLast]
    cases hb : (calcBuckets started_at elapsedMs input).dropLast with
    | nil => simp [std_dev]
    | cons x xs =>
      have hne : (List.map Prod.snd (x :: xs)).map (fun n : ℕ => (n : ℝ)) ≠ [] := by simp
      dsimp only
      rw [show (List.map Prod.snd (x :: xs)).isEmpty = false from rfl, if_pos rfl,
        std_dev_nonempty _ hne, Option.getD_some,
        if_neg (by simp : ¬(x :: xs).map (fun p => ((p.2 : ℕ) : ℝ)) = []),
        List.map_map]
      rfl
  refine ⟨hmain, fun hlen => ?_⟩
  rw [hmain, if_pos]
  have : (calcBuckets started_at elapsedMs input).dropLast = [] := by
    have := List.length_dropLast (calcBuckets started_at elapsedMs input)
    apply List.length_eq_zero.mp
    omega
  rw [this]
  rfl

/-- Witness for claim C7: the empty session has an empty histogram and
consistency exactly 0. -/
theorem consistency_eq_popStdDev_witness : consistencyOf 0 0 [] = 0 :=
  (consistency_eq_popStdDev 0 0 []).2 (by decide)
